import Mathlib

/-!
Verification of the wgpie UI scene core (`src/ui_scene.rs`).

The Rust code is shallowly embedded here.  `f32` values are modelled as
exact rationals (`ℚ`), so all arithmetic is the ideal real arithmetic the
spec reasons with; `cgmath::Matrix4<f32>` becomes `Matrix (Fin 4) (Fin 4) ℚ`.
Stateful methods on `&mut self` become functions returning the updated
value.  Fallible operations (`Option::unwrap` on `Matrix4::invert`,
`Result::unwrap` on tessellation) are kept as `Option`/`Except` so the
failure branches are visible.

External-crate primitives used by the code (cgmath's `from_translation`,
`From<Quaternion>`, `from_scale`, `invert`, `ortho`; lyon's
`tessellate_rectangle`) are not part of this repository's sources; they are
embedded from their documented mathematical definitions, and the lyon
tessellator contract is modelled from the spec where so marked.
-/

namespace Wgpie

/-- A 4×4 matrix of rationals, modelling `cgmath::Matrix4<f32>`. -/
abbrev Mat4 := Matrix (Fin 4) (Fin 4) ℚ

/-- `cgmath::Vector3<f32>`. -/
structure Vec3 where
  x : ℚ
  y : ℚ
  z : ℚ
deriving DecidableEq

/-- `cgmath::Quaternion<f32>`: scalar part `s`, vector part `(x, y, z)`. -/
structure Quat where
  s : ℚ
  x : ℚ
  y : ℚ
  z : ℚ
deriving DecidableEq

/-- The squared norm of a quaternion.  A rotation quaternion is a unit
quaternion: `normSq q = 1`. -/
def Quat.normSq (q : Quat) : ℚ :=
  q.s ^ 2 + q.x ^ 2 + q.y ^ 2 + q.z ^ 2

/-- Quaternion conjugate (proof device: for a unit quaternion it gives the
inverse rotation). -/
def Quat.conj (q : Quat) : Quat :=
  ⟨q.s, -q.x, -q.y, -q.z⟩

/-- `cgmath::Matrix4::from_translation t`: homogeneous translation matrix. -/
def from_translation (t : Vec3) : Mat4 :=
  !![1, 0, 0, t.x;
     0, 1, 0, t.y;
     0, 0, 1, t.z;
     0, 0, 0, 1]

/-- `cgmath::Matrix4::from_scale s`: homogeneous uniform scale matrix. -/
def from_scale (s : ℚ) : Mat4 :=
  !![s, 0, 0, 0;
     0, s, 0, 0;
     0, 0, s, 0;
     0, 0, 0, 1]

/-- `cgmath::Matrix4::from(q : Quaternion)`: the quaternion-to-matrix
conversion used by `get_view_proj`, entry for entry as cgmath computes it
(`x2 = x + x`, `xx2 = x * x2`, …; cgmath stores columns, the entries below
are written row-major so that `(i, j)` is row `i`, column `j`). -/
def from_quaternion (q : Quat) : Mat4 :=
  !![1 - 2*q.y*q.y - 2*q.z*q.z, 2*q.x*q.y - 2*q.s*q.z, 2*q.x*q.z + 2*q.s*q.y, 0;
     2*q.x*q.y + 2*q.s*q.z, 1 - 2*q.x*q.x - 2*q.z*q.z, 2*q.y*q.z - 2*q.s*q.x, 0;
     2*q.x*q.z - 2*q.s*q.y, 2*q.y*q.z + 2*q.s*q.x, 1 - 2*q.x*q.x - 2*q.y*q.y, 0;
     0, 0, 0, 1]

/-- `cgmath::SquareMatrix::invert`: `None` when the determinant vanishes,
otherwise the inverse, computed as cgmath does via the adjugate divided by
the determinant. -/
def invert (m : Mat4) : Option Mat4 :=
  if m.det = 0 then none else some (m.det⁻¹ • m.adjugate)

/-- `cgmath::ortho l r b t n f`: the orthographic projection matrix. -/
def ortho (l r b t n f : ℚ) : Mat4 :=
  !![2/(r-l), 0, 0, -(r+l)/(r-l);
     0, 2/(t-b), 0, -(t+b)/(t-b);
     0, 0, -2/(f-n), -(f+n)/(f-n);
     0, 0, 0, 1]

/-- `OrtographicCamera` (sic) from `src/ui_scene.rs`. -/
structure OrtographicCamera where
  projection : Mat4
  translation : Vec3
  rotation : Quat
  scale : ℚ

namespace OrtographicCamera

/-- The world transform built inside `get_view_proj`:
`from_translation(translation) * from(rotation) * from_scale(scale)`. -/
def world_transform (c : OrtographicCamera) : Mat4 :=
  from_translation c.translation * from_quaternion c.rotation * from_scale c.scale

/-- `OrtographicCamera::get_view_proj`.  The source unwraps the inversion;
here the possible failure is surfaced as `none`. -/
def get_view_proj (c : OrtographicCamera) : Option Mat4 :=
  (invert c.world_transform).map fun view => c.projection * view

/-- `OrtographicCamera::set_projection`. -/
def set_projection (c : OrtographicCamera) (proj : Mat4) : OrtographicCamera :=
  { c with projection := proj }

/-- `OrtographicCamera::set_position`. -/
def set_position (c : OrtographicCamera) (pos : Vec3) : OrtographicCamera :=
  { c with translation := pos }

/-- `OrtographicCamera::set_rotation`. -/
def set_rotation (c : OrtographicCamera) (rot : Quat) : OrtographicCamera :=
  { c with rotation := rot }

/-- `OrtographicCamera::add_scale`: add `delta` to the scale, snapping to
the floor `0.1` whenever the sum would be non-positive. -/
def add_scale (c : OrtographicCamera) (delta : ℚ) : OrtographicCamera :=
  if c.scale + delta ≤ 0 then
    { c with scale := 1/10 }
  else
    { c with scale := c.scale + delta }

end OrtographicCamera

/-- A 2-D point (`lyon::math::Point`). -/
structure Point where
  x : ℚ
  y : ℚ
deriving DecidableEq

/-- `lyon::geom::Box2D`: an axis-aligned rectangle given by two corners. -/
structure Box2D where
  min : Point
  max : Point
deriving DecidableEq

/-- The error taxonomy of the tessellator adapter (spec §7). -/
inductive TessellationError where
  | InvalidGeometry
  | TessellationFailure
deriving DecidableEq

/-- `Vertex` from `src/ui_scene.rs`: position (3 floats) and color
(3 floats). -/
structure Vertex where
  position : ℚ × ℚ × ℚ
  color : ℚ × ℚ × ℚ
deriving DecidableEq

/-- Modelled from the spec: the lyon fill tessellator's
`tessellate_rectangle`, whose implementation lives in the external `lyon`
crate and is not under `src/`.  Per spec §4.1 it produces a closed triangle
mesh covering exactly the rectangle — 4 corner vertices and 6 indices
forming 2 triangles, in a deterministic order — and fails loudly with
`InvalidGeometry` unless `min < max` on both axes.  Each produced point is
passed through the caller-supplied conversion closure `ctor`. -/
def tessellate_rectangle {V : Type} (box : Box2D) (ctor : Point → V) :
    Except TessellationError (List V × List ℕ) :=
  if box.min.x < box.max.x ∧ box.min.y < box.max.y then
    .ok ([ctor ⟨box.min.x, box.min.y⟩,
          ctor ⟨box.max.x, box.min.y⟩,
          ctor ⟨box.max.x, box.max.y⟩,
          ctor ⟨box.min.x, box.max.y⟩],
         [0, 1, 2, 0, 2, 3])
  else
    .error .InvalidGeometry

/-- The conversion closure supplied by `Player::new` to the tessellator:
`|vertex| Vertex { position: [x, y, 0.0], color: [0.0, 0.0, 0.5] }`. -/
def playerVertexCtor (p : Point) : Vertex :=
  { position := (p.x, p.y, 0), color := (0, 0, 1/2) }

/-- `Player` from `src/ui_scene.rs`, reduced to the CPU-side data the
claims are about: the tessellated vertices and indices (the GPU buffer
handles and the per-instance model matrix carry no further structure). -/
structure Player where
  vertices : List Vertex
  indices : List ℕ
deriving DecidableEq

/-- `Player::new`: tessellate the fixed rectangle `(0,0)–(50,50)` with the
color/z-assigning closure.  The source unwraps the tessellation result;
the possible failure is surfaced as `Except`. -/
def Player.new : Except TessellationError Player :=
  (tessellate_rectangle ⟨⟨0, 0⟩, ⟨50, 50⟩⟩ playerVertexCtor).map fun g =>
    { vertices := g.1, indices := g.2 }

/-- `winit::event::MouseScrollDelta`. -/
inductive MouseScrollDelta where
  | LineDelta (x y : ℚ)
  | PixelDelta (x y : ℚ)
deriving DecidableEq

/-- `winit::event::WindowEvent`, restricted to the shape `UIScene::input`
can observe: the mouse-wheel variant it matches on, and representatives of
all other variants, which the source treats uniformly through its `_`
wildcard arm. -/
inductive WindowEvent where
  | MouseWheel (delta : MouseScrollDelta)
  | CursorMoved (x y : ℚ)
  | KeyboardInput
  | Resized (w h : ℚ)
  | Other
deriving DecidableEq

/-- `UIScene` from `src/ui_scene.rs`, reduced to its CPU-side state: the
element collection, the camera, the contents of the screen-size uniform
buffer and the contents of the view-projection uniform buffer (the
pipeline and bind-group handles are immutable GPU objects with no further
structure). -/
structure UIScene where
  elements : List Player
  camera : OrtographicCamera
  screen_size : ℚ × ℚ
  camera_buffer : Mat4

namespace UIScene

/-- The camera literal constructed by `UIScene::new` for a surface
configuration of the given width and height: projection
`ortho(-half_width, half_width, -half_height, half_height, -1, 1)` with
`half_height = height / 2` and `half_width = half_height * aspect`,
translation zero, rotation `from_axis_angle(unit_z, Deg(0))` (the identity
quaternion `(1, 0, 0, 0)`), scale `1.0`. -/
def initialCamera (w h : ℚ) : OrtographicCamera :=
  let aspect := w / h
  let half_height := h / 2
  let half_width := half_height * aspect
  { projection := ortho (-half_width) half_width (-half_height) half_height (-1) 1
    translation := ⟨0, 0, 0⟩
    rotation := ⟨1, 0, 0, 0⟩
    scale := 1 }

/-- `UIScene::new`: tessellate the single `Player`, set up the initial
camera and write the initial uniform-buffer contents.  Failures of
tessellation or of the view-projection inversion (both unwrapped in the
source) are surfaced. -/
def new (w h : ℚ) : Except TessellationError (Option UIScene) :=
  Player.new.map fun p =>
    (initialCamera w h).get_view_proj.map fun vp =>
      { elements := [p]
        camera := initialCamera w h
        screen_size := (w, h)
        camera_buffer := vp }

/-- `UIScene::resize`: recompute the orthographic projection from the new
surface configuration and hand it to `set_projection`; nothing else is
touched. -/
def resize (s : UIScene) (w h : ℚ) : UIScene :=
  let aspect := w / h
  let half_height := h / 2
  let half_width := half_height * aspect
  let new_projection := ortho (-half_width) half_width (-half_height) half_height (-1) 1
  { s with camera := s.camera.set_projection new_projection }

/-- `UIScene::input`: a mouse-wheel event with a line delta forwards its
vertical component to `add_scale`; every other event falls through the
wildcard arms; the function returns `false` unconditionally. -/
def input (s : UIScene) (event : WindowEvent) : UIScene × Bool :=
  match event with
  | .MouseWheel delta =>
    match delta with
    | .LineDelta _ y => ({ s with camera := s.camera.add_scale y }, false)
    | _ => (s, false)
  | _ => (s, false)

/-- `UIScene::update`: recompute the view-projection matrix and write it
into the existing camera uniform buffer.  The source unwraps the
inversion inside `get_view_proj`; the failure is surfaced as `none`. -/
def update (s : UIScene) : Option UIScene :=
  s.camera.get_view_proj.map fun vp => { s with camera_buffer := vp }

end UIScene

/-- The load operation of a render pass color attachment. -/
inductive LoadOp where
  | Load
  | Clear
deriving DecidableEq

/-- One recorded render-pass command.  Draw calls carry the index range
and the instance range passed to `draw_indexed`; buffer bindings carry
their slot. -/
inductive RenderCmd where
  | BeginRenderPass (load : LoadOp)
  | SetPipeline
  | SetBindGroup (slot : ℕ)
  | SetVertexBuffer (slot : ℕ)
  | SetIndexBuffer
  | DrawIndexed (indexStart indexEnd : ℕ) (baseVertex : ℤ) (instStart instEnd : ℕ)
deriving DecidableEq

/-- `UIScene::render` as the list of commands it records: one render pass
loading (not clearing) the color target, the pipeline and the shared bind
group bound once, then per element its vertex buffer (slot 0), its
instance buffer (slot 1), its index buffer, and one indexed draw over
`0..indices.len()` with instance range `0..1`. -/
def UIScene.render (s : UIScene) : List RenderCmd :=
  .BeginRenderPass .Load :: .SetPipeline :: .SetBindGroup 0 ::
    s.elements.flatMap fun e =>
      [.SetVertexBuffer 0, .SetVertexBuffer 1, .SetIndexBuffer,
       .DrawIndexed 0 e.indices.length 0 0 1]

/-- The index range of a draw command, `none` for every other command. -/
def drawRangeOf : RenderCmd → Option (ℕ × ℕ)
  | .DrawIndexed a b _ _ _ => some (a, b)
  | _ => none

/-- The load operation of a begin-render-pass command, `none` otherwise. -/
def passLoadOf : RenderCmd → Option LoadOp
  | .BeginRenderPass l => some l
  | _ => none

/-- Camera states reachable from scene creation: the camera built by
`UIScene::new` for some surface configuration, closed under the four
camera operations. -/
inductive ReachableCamera : OrtographicCamera → Prop where
  | init (w h : ℚ) : ReachableCamera (UIScene.initialCamera w h)
  | addScale {c : OrtographicCamera} (d : ℚ) :
      ReachableCamera c → ReachableCamera (c.add_scale d)
  | setProjection {c : OrtographicCamera} (p : Mat4) :
      ReachableCamera c → ReachableCamera (c.set_projection p)
  | setPosition {c : OrtographicCamera} (p : Vec3) :
      ReachableCamera c → ReachableCamera (c.set_position p)
  | setRotation {c : OrtographicCamera} (r : Quat) :
      ReachableCamera c → ReachableCamera (c.set_rotation r)

/-! ## Concrete sample data used by witnesses -/

/-- A concrete camera: identity projection, zero translation, identity
rotation, scale `1`. -/
def cam0 : OrtographicCamera :=
  { projection := 1, translation := ⟨0, 0, 0⟩, rotation := ⟨1, 0, 0, 0⟩, scale := 1 }

/-- A concrete scene with no elements, used as a witness input. -/
def scene0 : UIScene :=
  { elements := [], camera := cam0, screen_size := (800, 600), camera_buffer := 1 }

/-- The mesh `Player::new` builds: the tessellation of the rectangle
`(0,0)–(50,50)` through the color/z closure. -/
def player50 : Player :=
  { vertices := [playerVertexCtor ⟨0, 0⟩, playerVertexCtor ⟨50, 0⟩,
                 playerVertexCtor ⟨50, 50⟩, playerVertexCtor ⟨0, 50⟩]
    indices := [0, 1, 2, 0, 2, 3] }

/-- The mesh of a 200×200 rectangle at the origin (the spec's end-to-end
scenario element). -/
def player200 : Player :=
  { vertices := [playerVertexCtor ⟨0, 0⟩, playerVertexCtor ⟨200, 0⟩,
                 playerVertexCtor ⟨200, 200⟩, playerVertexCtor ⟨0, 200⟩]
    indices := [0, 1, 2, 0, 2, 3] }

/-- `Player::new` succeeds and produces exactly `player50`. -/
lemma player_new_eq : Player.new = .ok player50 := by
  rw [Player.new, tessellate_rectangle, if_pos]
  · rfl
  · exact ⟨by norm_num, by norm_num⟩

/-- The 200×200 rectangle tessellates to exactly `player200`'s data. -/
lemma player200_tessellation :
    tessellate_rectangle ⟨⟨0, 0⟩, ⟨200, 200⟩⟩ playerVertexCtor
      = .ok (player200.vertices, player200.indices) := by
  rw [tessellate_rectangle, if_pos]
  · rfl
  · exact ⟨by norm_num, by norm_num⟩

/-! ## Helper lemmas -/

/-- `add_scale` never touches the projection. -/
lemma add_scale_projection (c : OrtographicCamera) (d : ℚ) :
    (c.add_scale d).projection = c.projection := by
  rw [OrtographicCamera.add_scale]
  split <;> rfl

/-- `add_scale` never touches the translation. -/
lemma add_scale_translation (c : OrtographicCamera) (d : ℚ) :
    (c.add_scale d).translation = c.translation := by
  rw [OrtographicCamera.add_scale]
  split <;> rfl

/-- `add_scale` never touches the rotation. -/
lemma add_scale_rotation (c : OrtographicCamera) (d : ℚ) :
    (c.add_scale d).rotation = c.rotation := by
  rw [OrtographicCamera.add_scale]
  split <;> rfl

/-- The translation matrix of the zero vector is the identity. -/
lemma from_translation_zero : from_translation ⟨0, 0, 0⟩ = 1 := by
  ext i j
  fin_cases i <;> fin_cases j <;>
    simp [from_translation, Matrix.one_apply, Matrix.vecHead, Matrix.vecTail]

/-- The rotation matrix of the identity quaternion is the identity. -/
lemma from_quaternion_one : from_quaternion ⟨1, 0, 0, 0⟩ = 1 := by
  ext i j
  fin_cases i <;> fin_cases j <;>
    simp [from_quaternion, Matrix.one_apply, Matrix.vecHead, Matrix.vecTail]

/-- The scale matrix of `1` is the identity. -/
lemma from_scale_one : from_scale 1 = 1 := by
  ext i j
  fin_cases i <;> fin_cases j <;>
    simp [from_scale, Matrix.one_apply, Matrix.vecHead, Matrix.vecTail]

/-- Inverting the identity matrix succeeds and yields the identity. -/
lemma invert_one : invert 1 = some 1 := by
  rw [invert, if_neg (by rw [Matrix.det_one]; norm_num)]
  rw [Matrix.det_one, Matrix.adjugate_one]
  norm_num

/-- For a unit quaternion, the conjugate's rotation matrix is a right
inverse of the quaternion's rotation matrix. -/
lemma from_quaternion_mul_conj (q : Quat) (h : q.normSq = 1) :
    from_quaternion q * from_quaternion q.conj = 1 := by
  simp only [Quat.normSq] at h
  ext i j
  fin_cases i <;> fin_cases j <;>
    simp [from_quaternion, Quat.conj, Matrix.mul_apply, Fin.sum_univ_four,
      Matrix.one_apply] <;>
    first
      | ring1
      | linear_combination (4*(q.y^2+q.z^2)) * h
      | linear_combination (4*(q.x^2+q.z^2)) * h
      | linear_combination (4*(q.x^2+q.y^2)) * h
      | linear_combination (4*q.x*q.y) * h
      | linear_combination (-(4*q.x*q.y)) * h
      | linear_combination (4*q.x*q.z) * h
      | linear_combination (-(4*q.x*q.z)) * h
      | linear_combination (4*q.y*q.z) * h
      | linear_combination (-(4*q.y*q.z)) * h

/-- The determinant of a translation matrix is `1`. -/
lemma det_from_translation (t : Vec3) : (from_translation t).det = 1 := by
  simp [from_translation, Matrix.det_succ_row_zero, Fin.sum_univ_succ]

/-- The determinant of the scale matrix is the cube of the scale. -/
lemma det_from_scale (s : ℚ) : (from_scale s).det = s * s * s := by
  simp [from_scale, Matrix.det_succ_row_zero, Fin.sum_univ_succ]
  ring

/-- A unit quaternion's rotation matrix has nonzero determinant. -/
lemma det_from_quaternion_ne_zero (q : Quat) (h : q.normSq = 1) :
    (from_quaternion q).det ≠ 0 :=
  Matrix.det_ne_zero_of_right_inverse (from_quaternion_mul_conj q h)

/-- The camera world transform has nonzero determinant whenever the scale
is positive and the rotation quaternion is a unit quaternion. -/
lemma world_transform_det_ne_zero (c : OrtographicCamera) (hs : 0 < c.scale)
    (hr : c.rotation.normSq = 1) : c.world_transform.det ≠ 0 := by
  rw [OrtographicCamera.world_transform, Matrix.det_mul, Matrix.det_mul,
    det_from_translation, det_from_scale, one_mul]
  exact mul_ne_zero (det_from_quaternion_ne_zero _ hr) (by positivity)

/-! ## Claims -/

/-- C1: for every camera state and every delta, `add_scale(delta)` sets
the scale to exactly `0.1` whenever `scale + delta ≤ 0` (boundary case
included, however negative the delta), otherwise to `scale + delta`; the
result is never the boundary value `0`. -/
theorem add_scale_floor_spec (c : OrtographicCamera) (delta : ℚ) :
    (c.scale + delta ≤ 0 → (c.add_scale delta).scale = 1/10) ∧
    (0 < c.scale + delta → (c.add_scale delta).scale = c.scale + delta) ∧
    (c.add_scale delta).scale ≠ 0 := by
  refine ⟨fun h => ?_, fun h => ?_, ?_⟩
  · rw [OrtographicCamera.add_scale, if_pos h]
  · rw [OrtographicCamera.add_scale, if_neg (not_le.mpr h)]
  · rw [OrtographicCamera.add_scale]
    split
    · norm_num
    · next h =>
        intro h0
        exact h (le_of_eq h0)

/-- Witness for C1 at concrete inputs: a large negative delta and the
boundary-sum case both snap to `0.1`; a positive-sum delta adds. -/
theorem add_scale_floor_spec_witness :
    (cam0.scale + (-5) ≤ 0 ∧ (cam0.add_scale (-5)).scale = 1/10) ∧
    (cam0.scale + (-1) ≤ 0 ∧ (cam0.add_scale (-1)).scale = 1/10) ∧
    (0 < cam0.scale + 2 ∧ (cam0.add_scale 2).scale = cam0.scale + 2) :=
  ⟨⟨by norm_num [cam0], (add_scale_floor_spec cam0 (-5)).1 (by norm_num [cam0])⟩,
   ⟨by norm_num [cam0], (add_scale_floor_spec cam0 (-1)).1 (by norm_num [cam0])⟩,
   ⟨by norm_num [cam0], (add_scale_floor_spec cam0 2).2.1 (by norm_num [cam0])⟩⟩

/-- C2: the camera scale is strictly positive in every state reachable
from scene creation: `UIScene::new` initializes it to `1.0` and each
camera operation preserves positivity. -/
theorem camera_scale_positive_invariant (c : OrtographicCamera)
    (h : ReachableCamera c) : 0 < c.scale := by
  induction h with
  | init w h => norm_num [UIScene.initialCamera]
  | addScale d _ _ =>
      rw [OrtographicCamera.add_scale]
      split
      · norm_num
      · next hle => exact not_le.mp hle
  | setProjection p _ ih => exact ih
  | setPosition p _ ih => exact ih
  | setRotation r _ ih => exact ih

/-- Witness for C2: the camera created for an 800×600 surface is
reachable and has positive scale. -/
theorem camera_scale_positive_invariant_witness :
    0 < (UIScene.initialCamera 800 600).scale :=
  camera_scale_positive_invariant _ (ReachableCamera.init 800 600)

/-- C3: for every camera with strictly positive scale and a unit rotation
quaternion, the world transform `translate × rotate × scale` built inside
`get_view_proj` is invertible, so the inversion (the unwrap) never fails;
and when the transform is singular the condition is detected and surfaced
(`none`), not silently defaulted. -/
theorem view_proj_inversion_never_fails (c : OrtographicCamera)
    (hs : 0 < c.scale) (hr : c.rotation.normSq = 1) :
    (invert c.world_transform).isSome = true ∧
    c.get_view_proj.isSome = true ∧
    (∀ c' : OrtographicCamera, c'.world_transform.det = 0 →
      c'.get_view_proj = none) := by
  have hdet : c.world_transform.det ≠ 0 := world_transform_det_ne_zero c hs hr
  refine ⟨?_, ?_, ?_⟩
  · rw [invert, if_neg hdet]
    rfl
  · rw [OrtographicCamera.get_view_proj, invert, if_neg hdet]
    rfl
  · intro c' h
    rw [OrtographicCamera.get_view_proj, invert, if_pos h]
    rfl

/-- Witness for C3: the inversion succeeds at a concrete camera with
scale `1` and the identity rotation quaternion. -/
theorem view_proj_inversion_never_fails_witness :
    0 < cam0.scale ∧ cam0.rotation.normSq = 1 ∧
    (invert cam0.world_transform).isSome = true :=
  ⟨by norm_num [cam0], by norm_num [cam0, Quat.normSq],
   (view_proj_inversion_never_fails cam0 (by norm_num [cam0])
     (by norm_num [cam0, Quat.normSq])).1⟩

/-- C4: for the identity camera (zero translation, identity quaternion,
scale `1`) and any projection matrix, `get_view_proj()` returns exactly
the projection matrix. -/
theorem view_proj_identity_camera (P : Mat4) :
    OrtographicCamera.get_view_proj ⟨P, ⟨0, 0, 0⟩, ⟨1, 0, 0, 0⟩, 1⟩ = some P := by
  have ht : OrtographicCamera.world_transform ⟨P, ⟨0, 0, 0⟩, ⟨1, 0, 0, 0⟩, 1⟩ = 1 := by
    show from_translation ⟨0, 0, 0⟩ * from_quaternion ⟨1, 0, 0, 0⟩ * from_scale 1 = 1
    rw [from_translation_zero, from_quaternion_one, from_scale_one, one_mul, one_mul]
  rw [OrtographicCamera.get_view_proj, ht, invert_one]
  simp

/-- C5: for every rectangle whose min corner is ≥ its max corner on at
least one axis, tessellation fails loudly with `InvalidGeometry`; it never
returns a mesh (empty or otherwise). -/
theorem tessellate_degenerate_invalid_geometry {V : Type} (box : Box2D)
    (ctor : Point → V) (h : box.max.x ≤ box.min.x ∨ box.max.y ≤ box.min.y) :
    tessellate_rectangle box ctor = .error .InvalidGeometry := by
  rw [tessellate_rectangle, if_neg]
  rintro ⟨h1, h2⟩
  cases h with
  | inl h => exact absurd h1 (not_lt.mpr h)
  | inr h => exact absurd h2 (not_lt.mpr h)

/-- Witness for C5 at concrete degenerate rectangles: zero width, and
inverted bounds on the y axis. -/
theorem tessellate_degenerate_invalid_geometry_witness :
    (((⟨⟨0, 0⟩, ⟨0, 50⟩⟩ : Box2D).max.x ≤ (⟨⟨0, 0⟩, ⟨0, 50⟩⟩ : Box2D).min.x ∨
      ((⟨⟨0, 0⟩, ⟨0, 50⟩⟩ : Box2D).max.y ≤ (⟨⟨0, 0⟩, ⟨0, 50⟩⟩ : Box2D).min.y)) ∧
     tessellate_rectangle ⟨⟨0, 0⟩, ⟨0, 50⟩⟩ playerVertexCtor = .error .InvalidGeometry) ∧
    tessellate_rectangle ⟨⟨0, 10⟩, ⟨50, 0⟩⟩ playerVertexCtor = .error .InvalidGeometry :=
  ⟨⟨Or.inl (by norm_num),
    tessellate_degenerate_invalid_geometry _ playerVertexCtor (Or.inl (by norm_num))⟩,
   tessellate_degenerate_invalid_geometry _ playerVertexCtor (Or.inr (by norm_num))⟩

/-- The (unsigned) area of the triangle on three produced vertices,
computed from their x/y coordinates by the shoelace formula. -/
def triArea (a b c : Vertex) : ℚ :=
  |(b.position.1 - a.position.1) * (c.position.2.1 - a.position.2.1) -
    (c.position.1 - a.position.1) * (b.position.2.1 - a.position.2.1)| / 2

/-- C6: for every rectangle with min strictly less than max on both axes,
tessellation through `Player::new`'s conversion closure produces exactly 4
vertices and 6 indices forming 2 triangles whose areas sum to the
rectangle's area exactly, and every vertex carries the fixed per-mesh
color `[0, 0, 0.5]` and z-coordinate `0`. -/
theorem tessellate_rectangle_mesh_spec (b : Box2D)
    (hx : b.min.x < b.max.x) (hy : b.min.y < b.max.y) :
    ∃ v0 v1 v2 v3 : Vertex,
      tessellate_rectangle b playerVertexCtor
        = .ok ([v0, v1, v2, v3], [0, 1, 2, 0, 2, 3]) ∧
      triArea v0 v1 v2 + triArea v0 v2 v3
        = (b.max.x - b.min.x) * (b.max.y - b.min.y) ∧
      ∀ v ∈ [v0, v1, v2, v3], v.color = (0, 0, 1/2) ∧ v.position.2.2 = 0 := by
  have hA : 0 < (b.max.x - b.min.x) * (b.max.y - b.min.y) :=
    mul_pos (by linarith) (by linarith)
  refine ⟨playerVertexCtor ⟨b.min.x, b.min.y⟩, playerVertexCtor ⟨b.max.x, b.min.y⟩,
    playerVertexCtor ⟨b.max.x, b.max.y⟩, playerVertexCtor ⟨b.min.x, b.max.y⟩, ?_, ?_, ?_⟩
  · rw [tessellate_rectangle, if_pos ⟨hx, hy⟩]
  · rw [triArea, triArea]
    simp only [playerVertexCtor]
    rw [abs_of_nonneg (by nlinarith), abs_of_nonneg (by nlinarith)]
    ring
  · intro v hv
    simp only [List.mem_cons, List.not_mem_nil, or_false] at hv
    rcases hv with rfl | rfl | rfl | rfl <;> exact ⟨rfl, rfl⟩

/-- Witness for C6 at the spec's 200×200 rectangle at the origin. -/
theorem tessellate_rectangle_mesh_spec_witness :
    ((⟨⟨0, 0⟩, ⟨200, 200⟩⟩ : Box2D).min.x < (⟨⟨0, 0⟩, ⟨200, 200⟩⟩ : Box2D).max.x) ∧
    ∃ v0 v1 v2 v3 : Vertex,
      tessellate_rectangle ⟨⟨0, 0⟩, ⟨200, 200⟩⟩ playerVertexCtor
        = .ok ([v0, v1, v2, v3], [0, 1, 2, 0, 2, 3]) ∧
      triArea v0 v1 v2 + triArea v0 v2 v3
        = ((⟨⟨0, 0⟩, ⟨200, 200⟩⟩ : Box2D).max.x - (⟨⟨0, 0⟩, ⟨200, 200⟩⟩ : Box2D).min.x) *
          ((⟨⟨0, 0⟩, ⟨200, 200⟩⟩ : Box2D).max.y - (⟨⟨0, 0⟩, ⟨200, 200⟩⟩ : Box2D).min.y) ∧
      ∀ v ∈ [v0, v1, v2, v3], v.color = (0, 0, 1/2) ∧ v.position.2.2 = 0 :=
  ⟨by norm_num,
   tessellate_rectangle_mesh_spec ⟨⟨0, 0⟩, ⟨200, 200⟩⟩ (by norm_num) (by norm_num)⟩

/-- C7: for every viewport with nonzero height, `resize` replaces the
camera projection with `ortho(-halfWidth, halfWidth, -halfHeight,
halfHeight, -1, 1)` where `halfHeight = height / 2` and `halfWidth =
halfHeight * (width / height)` in exact (floating-point, not integer)
division, and changes nothing else: camera translation, rotation and
scale, the screen-size uniform and the camera uniform buffer are all
untouched. -/
theorem resize_projection_spec (s : UIScene) (w h : ℚ) (_hnz : h ≠ 0) :
    (s.resize w h).camera.projection
      = ortho (-(h/2 * (w/h))) (h/2 * (w/h)) (-(h/2)) (h/2) (-1) 1 ∧
    (s.resize w h).camera.translation = s.camera.translation ∧
    (s.resize w h).camera.rotation = s.camera.rotation ∧
    (s.resize w h).camera.scale = s.camera.scale ∧
    (s.resize w h).screen_size = s.screen_size ∧
    (s.resize w h).camera_buffer = s.camera_buffer ∧
    (s.resize w h).elements = s.elements :=
  ⟨rfl, rfl, rfl, rfl, rfl, rfl, rfl⟩

/-- Witness for C7: resizing to 800×600 yields projection bounds
(-400, 400, -300, 300); resizing to 600×800 (aspect < 1) yields halfWidth
300, not 0. -/
theorem resize_projection_spec_witness :
    (600 : ℚ) ≠ 0 ∧
    (scene0.resize 800 600).camera.projection = ortho (-400) 400 (-300) 300 (-1) 1 ∧
    (scene0.resize 600 800).camera.projection = ortho (-300) 300 (-400) 400 (-1) 1 := by
  refine ⟨by norm_num, ?_, ?_⟩
  · have h := (resize_projection_spec scene0 800 600 (by norm_num)).1
    norm_num at h
    exact h
  · have h := (resize_projection_spec scene0 600 800 (by norm_num)).1
    norm_num at h
    exact h

/-- C8: `input` reports every window event as not consumed (returns
`false`), including the scroll events that mutate the camera scale. -/
theorem input_returns_false (s : UIScene) (e : WindowEvent) :
    (s.input e).2 = false := by
  cases e with
  | MouseWheel d => cases d <;> rfl
  | CursorMoved x y => rfl
  | KeyboardInput => rfl
  | Resized w h => rfl
  | Other => rfl

/-- C9: the only scene state `input` may change is the camera scale, and
only for a mouse-wheel event carrying a line delta, whose signed vertical
component is forwarded to `add_scale`; every other event — including a
wheel event with a pixel delta — leaves the scene unchanged. -/
theorem input_only_mutates_scale (s : UIScene) (e : WindowEvent) :
    ((s.input e).1.elements = s.elements ∧
     (s.input e).1.screen_size = s.screen_size ∧
     (s.input e).1.camera_buffer = s.camera_buffer ∧
     (s.input e).1.camera.projection = s.camera.projection ∧
     (s.input e).1.camera.translation = s.camera.translation ∧
     (s.input e).1.camera.rotation = s.camera.rotation) ∧
    (∀ x y, e = .MouseWheel (.LineDelta x y) →
      (s.input e).1.camera = s.camera.add_scale y) ∧
    ((∀ x y, e ≠ .MouseWheel (.LineDelta x y)) → (s.input e).1 = s) := by
  cases e with
  | MouseWheel d =>
    cases d with
    | LineDelta x y =>
      refine ⟨⟨rfl, rfl, rfl, add_scale_projection _ _, add_scale_translation _ _,
        add_scale_rotation _ _⟩, ?_, ?_⟩
      · intro x' y' hxy
        injection hxy with hd
        injection hd with hx hy
        subst hy
        rfl
      · intro hne
        exact absurd rfl (hne x y)
    | PixelDelta x y =>
      refine ⟨⟨rfl, rfl, rfl, rfl, rfl, rfl⟩, ?_, fun _ => rfl⟩
      intro x' y' hxy
      injection hxy with hd
      exact MouseScrollDelta.noConfusion hd
  | CursorMoved x y =>
      exact ⟨⟨rfl, rfl, rfl, rfl, rfl, rfl⟩,
        fun x' y' hxy => WindowEvent.noConfusion hxy, fun _ => rfl⟩
  | KeyboardInput =>
      exact ⟨⟨rfl, rfl, rfl, rfl, rfl, rfl⟩,
        fun x' y' hxy => WindowEvent.noConfusion hxy, fun _ => rfl⟩
  | Resized w h =>
      exact ⟨⟨rfl, rfl, rfl, rfl, rfl, rfl⟩,
        fun x' y' hxy => WindowEvent.noConfusion hxy, fun _ => rfl⟩
  | Other =>
      exact ⟨⟨rfl, rfl, rfl, rfl, rfl, rfl⟩,
        fun x' y' hxy => WindowEvent.noConfusion hxy, fun _ => rfl⟩

/-- Witness for C9: a line-delta scroll applies `add_scale` with the
vertical component; a pixel-delta scroll and a non-wheel event leave the
concrete scene untouched. -/
theorem input_only_mutates_scale_witness :
    (scene0.input (.MouseWheel (.LineDelta 0 2))).1.camera = scene0.camera.add_scale 2 ∧
    (scene0.input (.MouseWheel (.PixelDelta 0 2))).1 = scene0 ∧
    (scene0.input .KeyboardInput).1 = scene0 :=
  ⟨(input_only_mutates_scale scene0 (.MouseWheel (.LineDelta 0 2))).2.1 0 2 rfl,
   (input_only_mutates_scale scene0 (.MouseWheel (.PixelDelta 0 2))).2.2
     (fun x y hxy => by
       injection hxy with hd
       exact MouseScrollDelta.noConfusion hd),
   (input_only_mutates_scale scene0 .KeyboardInput).2.2
     (fun x y hxy => WindowEvent.noConfusion hxy)⟩

/-- `SetPipeline` recognizer. -/
def isSetPipeline : RenderCmd → Bool
  | .SetPipeline => true
  | _ => false

/-- `SetBindGroup` recognizer. -/
def isSetBindGroup : RenderCmd → Bool
  | .SetBindGroup _ => true
  | _ => false

/-- The per-element command block of `render` contains exactly the one
draw call over the element's full index range. -/
lemma render_flatMap_draws (l : List Player) :
    (l.flatMap fun e => [RenderCmd.SetVertexBuffer 0, RenderCmd.SetVertexBuffer 1,
        RenderCmd.SetIndexBuffer,
        RenderCmd.DrawIndexed 0 e.indices.length 0 0 1]).filterMap drawRangeOf
      = l.map fun e => (0, e.indices.length) := by
  induction l with
  | nil => rfl
  | cons e t ih =>
      simp [List.flatMap_cons, List.filterMap_append, List.filterMap_cons,
        drawRangeOf, ih]

/-- The per-element command blocks of `render` contain no pipeline
binding, no bind-group binding and no render-pass begin. -/
lemma render_flatMap_counts (l : List Player) :
    ((l.flatMap fun e => [RenderCmd.SetVertexBuffer 0, RenderCmd.SetVertexBuffer 1,
        RenderCmd.SetIndexBuffer,
        RenderCmd.DrawIndexed 0 e.indices.length 0 0 1]).countP isSetPipeline = 0 ∧
     (l.flatMap fun e => [RenderCmd.SetVertexBuffer 0, RenderCmd.SetVertexBuffer 1,
        RenderCmd.SetIndexBuffer,
        RenderCmd.DrawIndexed 0 e.indices.length 0 0 1]).countP isSetBindGroup = 0) ∧
    (l.flatMap fun e => [RenderCmd.SetVertexBuffer 0, RenderCmd.SetVertexBuffer 1,
        RenderCmd.SetIndexBuffer,
        RenderCmd.DrawIndexed 0 e.indices.length 0 0 1]).filterMap passLoadOf = [] := by
  induction l with
  | nil => exact ⟨⟨rfl, rfl⟩, rfl⟩
  | cons e t ih =>
      obtain ⟨⟨ih1, ih2⟩, ih3⟩ := ih
      refine ⟨⟨?_, ?_⟩, ?_⟩ <;>
        simp [List.flatMap_cons, List.countP_append, List.countP_cons,
          List.filterMap_append, List.filterMap_cons, isSetPipeline, isSetBindGroup,
          passLoadOf, ih1, ih2, ih3]

/-- C10: `render` records one render pass that loads (does not clear) the
color target, binds the pipeline and the shared bind group exactly once,
and issues exactly one indexed draw per element in insertion order, each
covering the element's full index range `0..indices.len()`; in particular
one 200×200 rectangle element yields one draw over 6 indices, and two
elements yield two draws in insertion order. -/
theorem render_trace_spec (s : UIScene) :
    s.render.filterMap passLoadOf = [LoadOp.Load] ∧
    s.render.countP isSetPipeline = 1 ∧
    s.render.countP isSetBindGroup = 1 ∧
    s.render.filterMap drawRangeOf = s.elements.map (fun e => (0, e.indices.length)) ∧
    (UIScene.render { scene0 with elements := [player200] }).filterMap drawRangeOf
      = [(0, 6)] ∧
    (UIScene.render { scene0 with elements := [player200, player50] }).filterMap
      drawRangeOf = [(0, 6), (0, 6)] := by
  obtain ⟨⟨h1, h2⟩, h3⟩ := render_flatMap_counts s.elements
  refine ⟨?_, ?_, ?_, ?_, rfl, rfl⟩
  · simp [UIScene.render, List.filterMap_cons, passLoadOf, h3]
  · simp [UIScene.render, List.countP_cons, isSetPipeline, isSetBindGroup, h1]
  · simp [UIScene.render, List.countP_cons, isSetPipeline, isSetBindGroup, h2]
  · simp [UIScene.render, List.filterMap_cons, drawRangeOf, render_flatMap_draws]

end Wgpie
